import Mathlib

/-!
Shallow embedding of the Keyvoice core (src/src-tauri/src): the audio capture
session (`audio.rs`), the model catalog, model loading, the model download
manager, the sample-rate conversion layer, and chunked transcription
(`whisper.rs`).

Modelling conventions:
* Audio samples (`f32` in the source) are carried as `ℚ`.  No embedded
  function ever computes with a sample value (down-mixing and RMS happen in
  the capture callback, which no claim here touches; FFT resampling and
  Whisper decoding are native code, modelled as abstract function
  parameters), so the carrier type is irrelevant; `ℚ` gives decidable
  equality for concrete evaluation.
* Fallible Rust code returning `Result<T, String>` is embedded as
  `Except String T`; code that can also abort the process (a `panic!` /
  `.expect`) is embedded with the three-valued `Outcome` below, whose
  `panicked` constructor marks a process abort as distinct from a returned
  error value.
* Native components (the rubato `FftFixedInOut` resampler, the
  `WhisperContext` decoder, the HTTP client, the file system) are abstract
  parameters: the embedding fixes only the control flow of the repository's
  own code around them.
-/

/-- Result of running a piece of Rust code that can return a value, return a
descriptive error (`Result::Err`), or abort the process (`panic!`). -/
inductive Outcome (α : Type) where
  | ok (val : α)
  | err (msg : String)
  | panicked (msg : String)
deriving DecidableEq, Repr

/-! ## Audio capture (`audio.rs`) -/

/-- The fields of `AudioManager` that `stop_recording` reads or writes.
`current_stream` (the live cpal handle) is represented only by
`is_recording`, which the source uses as the sole authority for the
idle/active distinction. -/
structure AudioManagerSt where
  current_device : Option String
  is_recording : Bool
  audio_buffer : List ℚ
  sample_rate : Nat
deriving DecidableEq, Repr

/-- `AudioManager::stop_recording` (audio.rs:221-239).  If the session is
idle it returns `Ok((vec![], 16000))`; otherwise it clears the recording
flag, drops the stream, and returns a clone of the accumulated buffer and
the sample rate actually in use.  Note the source returns a *pair* — no
peak-level component is computed anywhere in `audio.rs`. -/
def stop_recording (st : AudioManagerSt) :
    Except String (List ℚ × Nat) × AudioManagerSt :=
  if st.is_recording = false then
    (Except.ok ([], 16000), st)
  else
    (Except.ok (st.audio_buffer, st.sample_rate),
     { st with is_recording := false })

/-! ## Model catalog (`whisper.rs`, `WhisperModelInfo`) -/

structure WhisperModelInfo where
  id : String
  name : String
  size_mb : Nat
  description : String
  url : String
  filename : String
  recommended_for : List String
deriving DecidableEq, Repr

/-- `WhisperModelInfo::all` (whisper.rs:51-81): the static catalog. -/
def WhisperModelInfo.all : List WhisperModelInfo :=
  [ { id := "large-v3-turbo-q8_0"
    , name := "Large v3 Turbo Q8"
    , size_mb := 809
    , description := "Best quality and performance"
    , url := "https://huggingface.co/ggerganov/whisper.cpp/resolve/main/ggml-large-v3-turbo-q8_0.bin"
    , filename := "ggml-large-v3-turbo-q8_0.bin"
    , recommended_for := ["accuracy", "performance"] }
  , { id := "large-v3-turbo-q5_0"
    , name := "Large v3 Turbo Q5"
    , size_mb := 540
    , description := "Good quality for slower machines"
    , url := "https://huggingface.co/ggerganov/whisper.cpp/resolve/main/ggml-large-v3-turbo-q5_0.bin"
    , filename := "ggml-large-v3-turbo-q5_0.bin"
    , recommended_for := ["slower_machines"] }
  , { id := "distil-large-v3.5-q8_0"
    , name := "Distil-Large v3.5 Q8"
    , size_mb := 1520
    , description := "4-6x faster than Large-v3 with near-equal accuracy"
    , url := "https://huggingface.co/distil-whisper/distil-large-v3.5-ggml/resolve/main/ggml-model.bin"
    , filename := "ggml-model.bin"
    , recommended_for := ["accuracy", "speed"] }
  ]

/-- `WhisperModelInfo::get_by_id` (whisper.rs:83-86). -/
def WhisperModelInfo.get_by_id (id : String) : Option WhisperModelInfo :=
  WhisperModelInfo.all.find? (fun m => m.id == id)

/-! ## Model loading (`whisper.rs`, `WhisperModel::load_model`) -/

/-- The two fields of `WhisperModel` (whisper.rs:88-91).  `κ` stands for the
native `WhisperContext` handle. -/
structure WhisperModelSt (κ : Type) where
  context : Option κ
  current_model_id : Option String

/-- `WhisperModel::load_model` (whisper.rs:107-168).
Abstract environment: `modelDir` is the outcome of `get_model_path`'s
directory resolution, `fileExists` the file-system probe, `ctxNew` the
native `WhisperContext::new_with_params` constructor.  The macOS
Metal-resource scan (whisper.rs:121-155) only sets an environment variable
and touches no `WhisperModel` state, so it is elided.  The state fields are
assigned only after the context was constructed successfully. -/
def load_model {κ : Type}
    (modelDir : Except String String)
    (fileExists : String → Bool)
    (ctxNew : String → Except String κ)
    (st : WhisperModelSt κ) (model_id : Option String) :
    Except String Unit × WhisperModelSt κ :=
  match model_id.orElse (fun _ => st.current_model_id) with
  | none => (Except.error "No model specified", st)
  | some mid =>
    match WhisperModelInfo.get_by_id mid with
    | none => (Except.error ("Model not found: " ++ mid), st)
    | some info =>
      match modelDir with
      | Except.error e => (Except.error e, st)
      | Except.ok dir =>
        let path := dir ++ "/" ++ info.filename
        if fileExists path = false then
          (Except.error "Model not downloaded", st)
        else
          match ctxNew path with
          | Except.error e => (Except.error ("Failed to load model: " ++ e), st)
          | Except.ok ctx =>
            (Except.ok (), { context := some ctx, current_model_id := some mid })

/-! ## Model download (`whisper.rs`, `WhisperModel::download`) -/

/-- A `tauri_specta` event emitted by `download`: either a
`ModelDownloadProgress` (whisper.rs:20-25; the percentage is
`downloaded / total * 100`, an exact rational here standing for the `f64`)
or a `ModelDownloadComplete` (whisper.rs:27-31). -/
inductive DlEvent where
  | progress (pct : ℚ) (downloaded total : Nat)
  | complete (success : Bool) (error : Option String)
deriving DecidableEq, Repr

/-- One item observed on the HTTP byte stream: a successfully received chunk
of `len` bytes tagged with the outcome of the `file.write_all` which the
source performs on it, or a transport error from the stream itself. -/
inductive StreamItem where
  | chunk (len : Nat) (writeRes : Except String Unit)
  | terr (msg : String)
deriving Repr

/-- What the download leaves on disk: whether a file sits at the final
catalog filename, and whether a `<filename>.tmp` sibling exists. -/
structure DlFs where
  finalExists : Bool
  tmpExists : Bool
deriving DecidableEq, Repr

/-- Result of `download`: the returned `Result`, the events emitted in
order, and the on-disk state afterwards. -/
structure DlResult where
  result : Except String Unit
  events : List DlEvent
  fs : DlFs
deriving Repr

/-- The `while let Some(chunk_result) = stream.next()` loop of `download`
(whisper.rs:398-428) followed by the sync/rename epilogue
(whisper.rs:430-443).  Entered with the temp file created (so `tmpExists`
is true and `finalExists` false throughout, until the terminal step).
On a write error the source propagates with `?`: no file removal and no
completion event.  On a transport error it removes the temp file, emits a
failure completion, and returns the error.  After the stream is exhausted
it syncs (propagating failure with the temp file left behind), renames the
temp file onto the final path, and emits a success completion. -/
def dlLoop (total : Nat) (syncRes renameRes : Except String Unit) :
    List StreamItem → Nat → DlResult
  | [], _ =>
    match syncRes with
    | Except.error e =>
      ⟨Except.error ("Failed to sync file: " ++ e), [], ⟨false, true⟩⟩
    | Except.ok () =>
      match renameRes with
      | Except.error e =>
        ⟨Except.error ("Failed to rename file: " ++ e), [], ⟨false, true⟩⟩
      | Except.ok () =>
        ⟨Except.ok (), [DlEvent.complete true none], ⟨true, false⟩⟩
  | StreamItem.chunk len w :: rest, downloaded =>
    match w with
    | Except.error e =>
      ⟨Except.error ("Failed to write chunk: " ++ e), [], ⟨false, true⟩⟩
    | Except.ok () =>
      let d := downloaded + len
      let res := dlLoop total syncRes renameRes rest d
      ⟨res.result,
       DlEvent.progress ((d * 100 : ℚ) / (total : ℚ)) d total :: res.events,
       res.fs⟩
  | StreamItem.terr e :: _, _ =>
    ⟨Except.error ("Download failed: " ++ e),
     [DlEvent.complete false (some ("Download failed: " ++ e))],
     ⟨false, false⟩⟩

/-- `WhisperModel::download` (whisper.rs:360-444).
Abstract environment: `fs0` is the initial disk state for this model's
paths, `sendRes` the outcome of `client.get(url).send()`, `contentLength`
the response's `Content-Length`, `createRes` the outcome of
`File::create(temp_path)`, `stream` the byte stream together with each
chunk's write outcome, and `syncRes`/`renameRes` the epilogue outcomes. -/
def download (model_id : String) (fs0 : DlFs)
    (sendRes : Except String Unit) (contentLength : Option Nat)
    (createRes : Except String Unit) (stream : List StreamItem)
    (syncRes renameRes : Except String Unit) : DlResult :=
  match WhisperModelInfo.get_by_id model_id with
  | none => ⟨Except.error ("Model not found: " ++ model_id), [], fs0⟩
  | some _ =>
    if fs0.finalExists then
      ⟨Except.ok (), [DlEvent.complete true none], fs0⟩
    else
      match sendRes with
      | Except.error e =>
        ⟨Except.error ("Failed to start download: " ++ e), [], fs0⟩
      | Except.ok () =>
        match contentLength with
        | none => ⟨Except.error "Failed to get content length", [], fs0⟩
        | some total =>
          match createRes with
          | Except.error e =>
            ⟨Except.error ("Failed to create file: " ++ e), [], fs0⟩
          | Except.ok () => dlLoop total syncRes renameRes stream 0

/-! ## Sample-rate conversion (`whisper.rs`, `WhisperModel::resample_audio`)

The rubato `FftFixedInOut` resampler is native code; it is modelled as an
abstract per-chunk processing function `Nat → List ℚ → Except String
(List ℚ)` whose first argument is the index of the call (the FFT state
mutates deterministically as chunks are processed, so the output of a call
is a function of the chunk index and contents).  The global
`RESAMPLER_CACHE` memoizes `FftFixedInOut::new` per `(from, to,
chunk_size)` key; since the constructor is deterministic in the key,
memoization is semantically the identity and the embedding consults the
abstract constructor directly. -/

/-- `2 ^ e` as an exact rational, by cases on the sign of `e` so that it
evaluates by kernel reduction on concrete inputs. -/
def qpow2 (e : ℤ) : ℚ :=
  if 0 ≤ e then ((2 ^ e.toNat : ℕ) : ℚ) else 1 / ((2 ^ (-e).toNat : ℕ) : ℚ)

/-- Fuel-bounded `⌊log₂ n⌋` (exact when `0 < n ≤ fuel`), structural so
that it kernel-evaluates. -/
def natLog2 : Nat → Nat → Nat
  | 0, _ => 0
  | fuel + 1, n => if n < 2 then 0 else natLog2 fuel (n / 2) + 1

/-- Decides `2 ^ e ≤ a / b` in exact integer arithmetic. -/
def pow2le (e : ℤ) (a b : ℕ) : Bool :=
  if 0 ≤ e then b * 2 ^ e.toNat ≤ a else b ≤ a * 2 ^ (-e).toNat

/-- The binade exponent `⌊log₂ (a / b)⌋` of a positive rational `a / b`:
the unique `e` with `2 ^ e ≤ a / b < 2 ^ (e + 1)`. -/
def intFloorLog2 (a b : ℕ) : ℤ :=
  if pow2le ((natLog2 a a : ℤ) - (natLog2 b b : ℤ)) a b then
    (natLog2 a a : ℤ) - (natLog2 b b : ℤ)
  else (natLog2 a a : ℤ) - (natLog2 b b : ℤ) - 1

/-- Scales the fraction `a / b` by `2 ^ (-u)`, keeping an integer
numerator and denominator. -/
def flScale (a b : ℕ) (u : ℤ) : ℕ × ℕ :=
  if 0 ≤ u then (a, b * 2 ^ u.toNat) else (a * 2 ^ (-u).toNat, b)

/-- The quotient `A / B` rounded to the nearest integer, ties to even —
the IEEE-754 rounding of an exact quotient to an integer significand. -/
def roundNearestEven (A B : ℕ) : ℕ :=
  if B < 2 * (A % B) then A / B + 1
  else if 2 * (A % B) < B then A / B
  else if (A / B) % 2 = 0 then A / B else A / B + 1

/-- The IEEE-754 binary64 (`f64`) value of the exact quotient `a / b` of
two positive naturals, as a significand–exponent pair: `a / b` is scaled
into `[2^52, 2^53)` and the scaled value rounded to nearest, ties to
even.  For the magnitudes arising here (quotients built from `u32`
sample rates) the exponent is far from the subnormal and overflow
ranges, so this is exactly Rust's `a as f64 / b as f64` (a `u32`
converts to `f64` losslessly, and IEEE division is the correctly
rounded exact quotient). -/
def flN (a b : ℕ) : ℕ × ℤ :=
  (roundNearestEven (flScale a b (intFloorLog2 a b - 52)).1
     (flScale a b (intFloorLog2 a b - 52)).2,
   intFloorLog2 a b - 52)

/-- The rational value denoted by a significand–exponent pair. -/
def flVal (p : ℕ × ℤ) : ℚ := (p.1 : ℚ) * qpow2 p.2

/-- `1024 / x` for a positive binary64 `x = m · 2^e`, as an exact
fraction of naturals (1024 and the exponent factor are powers of two, so
only the division by the significand `m` can be inexact; binary64
division then rounds this exact quotient, i.e. applies `flN`). -/
def recip1024 (p : ℕ × ℤ) : ℕ × ℕ :=
  if p.2 ≤ 10 then (2 ^ (10 - p.2).toNat, p.1) else (1, p.1 * 2 ^ (p.2 - 10).toNat)

/-- `f64::round` (round half away from zero) of the non-negative
binary64 value `m · 2^e`, in integer arithmetic: for `e ≥ 0` the value
is an integer already, otherwise it is
`⌊m / 2^(-e) + 1/2⌋ = (2·m + 2^(-e)) / 2^(1-e)`. -/
def roundAwayParts (p : ℕ × ℤ) : ℕ :=
  if 0 ≤ p.2 then p.1 * 2 ^ p.2.toNat
  else (2 * p.1 + 2 ^ (-p.2).toNat) / 2 ^ ((-p.2).toNat + 1)

/-- `(1024.0 / ratio).round() as usize` of `resample_audio`
(whisper.rs:255-258), computed exactly: `ratio = from as f64 / to as
f64` is the correctly rounded binary64 quotient `flN f t`; `1024.0 /
ratio` is the binary64 rounding (`flN` again) of the exact fraction
`recip1024 (flN f t)`; `.round()` rounds half away from zero
(`roundAwayParts`).  The final `as usize` truncates, but the argument is
a non-negative integer-valued `f64` below `2^53`, so it is exact. -/
def chunkFactorF64 (f t : ℕ) : ℕ :=
  roundAwayParts (flN (recip1024 (flN f t)).1 (recip1024 (flN f t)).2)

/-- The chunk-size selection of `resample_audio` (whisper.rs:254-262):
`ratio = from as f64 / to as f64`; if `ratio > 1.0` the size is
`((1024.0 / ratio).round() as usize * ratio as usize).max(64)`,
otherwise `512`.  The test `ratio > 1.0` holds exactly when `t < f`: for
`0 < t ≠ f` the binary64 rounding error of `f / t` is below a half-ulp
(at most `2^-21` here) while the distance from `f / t` to `1.0` is at
least `1 / t > 2^-32`, scaling with the binade, so rounding never moves
the quotient across `1.0`; and `t = 0` gives `ratio = +∞ > 1.0` with a
zero chunk factor on both sides, hence `max 0 64` either way.
`ratio as usize` truncates, and equals `f / t` in natural division: the
distance from `f / t` to the nearest integer is `0` (then the quotient
is exact) or at least `1 / t`, again above the rounding error in every
binade, so the rounded quotient never crosses an integer boundary. -/
def resampleChunkSize (f t : Nat) : Nat :=
  if t < f then max (chunkFactorF64 f t * (f / t)) 64 else 512

/-- The chunk size as the specification's words describe it (for comparison
with `resampleChunkSize`, which is translated from the source): "if
`from_rate > to_rate` (downsampling), chunk size is
`round(1024 / ratio) * ratio`, floored at 64; otherwise a fixed 512-sample
chunk", with `ratio = from_rate / to_rate` the exact ratio. -/
def chunkSizeClaimed (f t : Nat) : ℚ :=
  if t < f then
    max ((round ((1024 : ℚ) / ((f : ℚ) / (t : ℚ))) : ℚ) * ((f : ℚ) / (t : ℚ))) 64
  else 512

/-- The `while input_pos < input.len()` loop of `resample_audio`
(whisper.rs:283-317), with `fuel` bounding the number of iterations (the
caller passes `input.length + 1`, which suffices since every iteration
consumes at least one sample when `0 < cs`; with `cs = 0` the source loop
would never advance, which the exhausted-fuel marker records).
A final short chunk is zero-padded to `cs` before processing and its output
truncated to `(len as f64 * t as f64 / f as f64) as usize` — a truncating
cast, embedded as natural division (exact for the magnitudes involved) —
capped by the produced length; a full chunk's output is appended whole. -/
def resampleLoop (proc : Nat → List ℚ → Except String (List ℚ))
    (cs f t : Nat) : Nat → List ℚ → Nat → List ℚ → Outcome (List ℚ)
  | _, [], _, acc => Outcome.ok acc
  | 0, _ :: _, _, _ => Outcome.panicked "resample loop does not terminate"
  | fuel + 1, x :: xs, idx, acc =>
    let input := x :: xs
    if input.length < cs then
      match proc idx (input ++ List.replicate (cs - input.length) 0) with
      | Except.error e => Outcome.err ("Failed to resample final chunk: " ++ e)
      | Except.ok out =>
        Outcome.ok (acc ++ out.take (min (input.length * t / f) out.length))
    else
      match proc idx (input.take cs) with
      | Except.error e => Outcome.err ("Failed to resample chunk: " ++ e)
      | Except.ok out =>
        resampleLoop proc cs f t fuel (input.drop cs) (idx + 1) (acc ++ out)

/-- `WhisperModel::resample_audio` (whisper.rs:251-320).  `ctor` is the
abstract `FftFixedInOut::<f32>::new(from, to, chunk_size, 1)`; the source
unwraps it with `.expect("Failed to create resampler")`, so a construction
error aborts the process instead of being returned. -/
def resample_audio (ctor : Nat → Nat → Nat → Except String (Nat → List ℚ → Except String (List ℚ)))
    (input : List ℚ) (f t : Nat) : Outcome (List ℚ) :=
  let cs := resampleChunkSize f t
  match ctor f t cs with
  | Except.error _ => Outcome.panicked "Failed to create resampler"
  | Except.ok proc => resampleLoop proc cs f t (input.length + 1) input 0 []

/-! ## Transcription (`whisper.rs`, `WhisperModel::transcribe_chunked`)

Whisper decoding of one (padded) chunk — `create_state`, `full(params, _)`
with fixed greedy parameters, and the segment-text concatenation
(whisper.rs:491-532) — is deterministic native code, modelled as one
abstract function `decode : List ℚ → Except String String` whose error
case stands for any of the wrapped state/decode/segment errors. -/

/-- Rust's `str::trim` (used at whisper.rs:534 and whisper.rs:248): the
string with leading and trailing whitespace removed.  (Implemented over the
character list so that it is kernel-computable; `String.trim` in core is
extensionally the same operation.) -/
def strTrim (s : String) : String :=
  String.mk (((s.data.dropWhile Char.isWhitespace).reverse.dropWhile
    Char.isWhitespace).reverse)

/-- The accumulation step of `transcribe_chunked` (whisper.rs:535-539): a
space separator is inserted only when text was already accumulated. -/
def accStep (a t : String) : String :=
  if a = "" then t else a ++ " " ++ t

/-- Space-joined concatenation of a list of texts. -/
def spaceJoin : List String → String
  | [] => ""
  | [t] => t
  | t :: rest => t ++ " " ++ spaceJoin rest

/-- Zero-padding of a short chunk to `n` samples (whisper.rs:483-489 and,
for the resampler, whisper.rs:290-292): `vec![0.0; n]` with the chunk
copied onto its front is the chunk followed by zeros. -/
def padTo (n : Nat) (c : List ℚ) : List ℚ :=
  if c.length < n then c ++ List.replicate (n - c.length) 0 else c

/-- Rust's `slice::chunks(cs)` (whisper.rs:480): pieces of `cs` elements,
the last possibly shorter, none for the empty slice.  `fuel` bounds the
recursion; callers pass the list length (`chunks(0)` panics in Rust and is
never reached here, all call sites having `0 < cs`). -/
def listChunks (cs : Nat) : Nat → List ℚ → List (List ℚ)
  | _, [] => []
  | 0, _ :: _ => []
  | fuel + 1, x :: xs => (x :: xs).take cs :: listChunks cs fuel ((x :: xs).drop cs)

/-- The per-chunk loop of `transcribe_chunked` (whisper.rs:480-550).
`K` is `total_chunks`; the trimmed chunk text, when non-empty, is appended
(space-joined) to the running text and `on_chunk(full_text, chunk_idx ==
total_chunks - 1)` is invoked; the invocations are collected in order. -/
def chunkLoop (decode : List ℚ → Except String String) (cs K : Nat) :
    List (List ℚ) → Nat → String → List (String × Bool) →
    Outcome (String × List (String × Bool))
  | [], _, fullText, calls => Outcome.ok (fullText, calls)
  | c :: rest, idx, fullText, calls =>
    match decode (padTo cs c) with
    | Except.error e => Outcome.err e
    | Except.ok raw =>
      let t := strTrim raw
      if t = "" then chunkLoop decode cs K rest (idx + 1) fullText calls
      else
        let fullText' := accStep fullText t
        chunkLoop decode cs K rest (idx + 1) fullText'
          (calls ++ [(fullText', decide (idx = K - 1))])

/-- `WhisperModel::transcribe_chunked` (whisper.rs:446-553).  `context` is
the loaded model's decoder (`None` when no model is loaded); audio not at
16 kHz is resampled first via `resample_audio` (whose construction panic,
were it to occur, would propagate); `chunkSamples` is
`(16000.0 * chunk_duration_secs) as usize`.  Returns the final accumulated
text together with the ordered list of `on_chunk` invocations. -/
def transcribe_chunked
    (ctor : Nat → Nat → Nat → Except String (Nat → List ℚ → Except String (List ℚ)))
    (context : Option (List ℚ → Except String String))
    (audio : List ℚ) (sampleRate chunkSamples : Nat) :
    Outcome (String × List (String × Bool)) :=
  match context with
  | none => Outcome.err "Model not loaded"
  | some decode =>
    match (if sampleRate = 16000 then Outcome.ok audio
           else resample_audio ctor audio sampleRate 16000) with
    | Outcome.panicked m => Outcome.panicked m
    | Outcome.err m => Outcome.err m
    | Outcome.ok resampled =>
      let totalChunks := (resampled.length + chunkSamples - 1) / chunkSamples
      chunkLoop decode chunkSamples totalChunks
        (listChunks chunkSamples resampled.length resampled) 0 "" []

/-! ## Concrete environment instances used to evaluate the theorems -/

/-- A resampler constructor that always fails. -/
def ctorFailing : Nat → Nat → Nat → Except String (Nat → List ℚ → Except String (List ℚ)) :=
  fun _ _ _ => Except.error "fft size unsupported"

/-- A trivially succeeding resampler: every processed chunk yields 270
output samples (the concrete value is irrelevant to the properties). -/
def procFixed : Nat → List ℚ → Except String (List ℚ) :=
  fun _ _ => Except.ok (List.replicate 270 0)

/-- A constructor returning `procFixed`. -/
def ctorFixed : Nat → Nat → Nat → Except String (Nat → List ℚ → Except String (List ℚ)) :=
  fun _ _ _ => Except.ok procFixed

/-- A resampler whose processing always fails. -/
def ctorProcFailing : Nat → Nat → Nat → Except String (Nat → List ℚ → Except String (List ℚ)) :=
  fun _ _ _ => Except.ok (fun _ _ => Except.error "fft processing failed")

/-- A concrete decoder for evaluating the chunked-transcription theorems:
chunk `[1, 1]` decodes to `" hello "` (trims to `"hello"`), chunk `[2, 2]`
to whitespace only (trims to empty), anything else to `"world"`. -/
def decodeSample (c : List ℚ) : Except String String :=
  if c = [1, 1] then Except.ok " hello "
  else if c = [2, 2] then Except.ok "  "
  else Except.ok "world"

/-- A concrete decoder whose only speech-bearing chunk is `[5]`: used to
evaluate the trailing-silence behaviour. -/
def decodeTail (c : List ℚ) : Except String String :=
  if c = [5] then Except.ok "hi" else Except.ok ""

/-! # Theorems -/

/-! ## Audio capture: `stop_recording` -/

/-- C2: the specification states that stopping an active capture session
returns a triple `(samples, effective_sample_rate, peak_level)` with the
peak level equal to the maximum absolute sample observed.  The source's
`stop_recording` however returns only the pair `(samples, sample_rate)` —
no peak level is computed anywhere in `audio.rs`, even though the callers
in `lib.rs` (line 195 and others) destructure a three-element result.
This theorem records what the code actually returns for an active
session. -/
theorem C2_stop_active_returns_pair (st : AudioManagerSt)
    (h : st.is_recording = true) :
    stop_recording st =
      (Except.ok (st.audio_buffer, st.sample_rate),
       { st with is_recording := false }) := by
  simp [stop_recording, h]

/-- Witness for `C2_stop_active_returns_pair`: an active session holding two
seconds' worth of silence at 48 kHz (abbreviated to three zero samples)
yields the buffer and the rate — and nothing else. -/
theorem C2_stop_active_returns_pair_witness :
    stop_recording ⟨none, true, [0, 0, 0], 48000⟩ =
      (Except.ok ([0, 0, 0], 48000), ⟨none, false, [0, 0, 0], 48000⟩) :=
  C2_stop_active_returns_pair ⟨none, true, [0, 0, 0], 48000⟩ rfl

/-- C8: stopping while idle succeeds — it never fails — and returns the
empty sample list and the documented default rate 16000, with the state
untouched.  (The result again has no peak-level component: the source
returns `Ok((vec![], 16000))`, a pair, whereas the specification's result
triple promises a third component equal to 0.) -/
theorem C8_stop_idle_empty_default (st : AudioManagerSt)
    (h : st.is_recording = false) :
    stop_recording st = (Except.ok ([], 16000), st) := by
  simp [stop_recording, h]

/-- Witness for `C8_stop_idle_empty_default`: an idle manager that still
holds a stale buffer and a non-default rate from an earlier session. -/
theorem C8_stop_idle_empty_default_witness :
    stop_recording ⟨some "Mic", false, [3, 7], 44100⟩ =
      (Except.ok ([], 16000), ⟨some "Mic", false, [3, 7], 44100⟩) :=
  C8_stop_idle_empty_default ⟨some "Mic", false, [3, 7], 44100⟩ rfl

/-! ## Model loading -/

/-- C7: `get_by_id` of an unknown id yields nothing, and a `load_model`
call that fails — unknown catalog id, missing model file, or native
context-initialization failure — returns a descriptive error and leaves
the `WhisperModel` state (loaded context and current model id) exactly as
it was. -/
theorem C7_load_failure_preserves_state {κ : Type}
    (modelDir : Except String String) (fileExists : String → Bool)
    (ctxNew : String → Except String κ) (st : WhisperModelSt κ) (id : String)
    (h : WhisperModelInfo.get_by_id id = none ∨
      (∃ info dir, WhisperModelInfo.get_by_id id = some info ∧
        modelDir = Except.ok dir ∧
        fileExists (dir ++ "/" ++ info.filename) = false) ∨
      (∃ info dir e, WhisperModelInfo.get_by_id id = some info ∧
        modelDir = Except.ok dir ∧
        fileExists (dir ++ "/" ++ info.filename) = true ∧
        ctxNew (dir ++ "/" ++ info.filename) = Except.error e)) :
    (∃ msg, load_model modelDir fileExists ctxNew st (some id) =
      (Except.error msg, st)) ∧
    WhisperModelInfo.get_by_id "nonexistent" = none := by
  refine ⟨?_, by rfl⟩
  rcases h with hnone | ⟨info, dir, hinfo, hdir, hfe⟩ |
    ⟨info, dir, e, hinfo, hdir, hfe, hctx⟩
  · exact ⟨"Model not found: " ++ id, by simp [load_model, Option.orElse, hnone]⟩
  · exact ⟨"Model not downloaded",
      by simp [load_model, Option.orElse, hinfo, hdir, hfe]⟩
  · exact ⟨"Failed to load model: " ++ e,
      by simp [load_model, Option.orElse, hinfo, hdir, hfe, hctx]⟩

/-- Witness for `C7_load_failure_preserves_state`: loading `"nonexistent"`
over an engine that already holds a context for `"large-v3-turbo-q8_0"`
fails and preserves that state. -/
theorem C7_load_failure_preserves_state_witness :
    (∃ msg, load_model (κ := Unit) (Except.ok "/models") (fun _ => true)
        (fun _ => Except.error "init failed")
        ⟨some (), some "large-v3-turbo-q8_0"⟩ (some "nonexistent") =
      (Except.error msg, ⟨some (), some "large-v3-turbo-q8_0"⟩)) ∧
    WhisperModelInfo.get_by_id "nonexistent" = none :=
  C7_load_failure_preserves_state (Except.ok "/models") (fun _ => true)
    (fun _ => Except.error "init failed")
    ⟨some (), some "large-v3-turbo-q8_0"⟩ "nonexistent" (Or.inl rfl)

/-! ## Model download -/

/-- C9: downloading a model whose target file already exists emits exactly
one success-completion event and returns `Ok`, regardless of what the
network, the content length, the temp file, the stream, or the epilogue
would have done — no progress event is emitted and the disk state is
untouched. -/
theorem C9_download_idempotent (id : String) (info : WhisperModelInfo)
    (hid : WhisperModelInfo.get_by_id id = some info)
    (fs0 : DlFs) (hfs : fs0.finalExists = true)
    (sendRes : Except String Unit) (contentLength : Option Nat)
    (createRes : Except String Unit) (stream : List StreamItem)
    (syncRes renameRes : Except String Unit) :
    download id fs0 sendRes contentLength createRes stream syncRes renameRes =
      ⟨Except.ok (), [DlEvent.complete true none], fs0⟩ := by
  simp [download, hid, hfs]

/-- Witness for `C9_download_idempotent`: with the file present, even a
dead network (`send` failing, a transport error on the stream, every file
operation failing) is never touched — the download reports success. -/
theorem C9_download_idempotent_witness :
    download "large-v3-turbo-q8_0" ⟨true, false⟩ (Except.error "offline") none
      (Except.error "no file") [StreamItem.terr "network gone"]
      (Except.error "sync") (Except.error "rename") =
      ⟨Except.ok (), [DlEvent.complete true none], ⟨true, false⟩⟩ :=
  C9_download_idempotent "large-v3-turbo-q8_0" _ rfl ⟨true, false⟩ rfl
    (Except.error "offline") none (Except.error "no file")
    [StreamItem.terr "network gone"] (Except.error "sync")
    (Except.error "rename")

/-! ## The binary64 chunk-size computation: correctness of the model

`flN`/`flVal` realise IEEE-754 binary64 arithmetic on the positive
rationals met in the chunk-size computation; the lemmas below establish
the half-ulp error bound of correct rounding and, from it, that the
doubly rounded `(1024.0 / (f as f64 / t as f64)).round()` agrees with
rounding the exact rational `1024·t/f` half away from zero whenever that
rational is not an exact half-integer (the condition
`(2048·t) % (2·f) ≠ f`): the accumulated relative error `2^-51` is
smaller than the distance `≥ 1/(2f) > 2^-33` from a non-tie to the
nearest half-integer. -/

theorem qpow2_eq_zpow (e : ℤ) : qpow2 e = (2 : ℚ) ^ e := by
  unfold qpow2
  split
  · rename_i h
    push_cast
    rw [← zpow_natCast]
    congr 1
    omega
  · rename_i h
    obtain ⟨k, rfl⟩ : ∃ k : ℕ, e = -(k : ℤ) := ⟨(-e).toNat, by omega⟩
    rw [zpow_neg, zpow_natCast, one_div]
    push_cast
    congr 2
    omega

theorem qpow2_pos (e : ℤ) : 0 < qpow2 e := by
  rw [qpow2_eq_zpow]
  positivity

theorem natLog2_spec : ∀ (fuel n : Nat), 0 < n → n ≤ fuel →
    2 ^ natLog2 fuel n ≤ n ∧ n < 2 ^ (natLog2 fuel n + 1) := by
  intro fuel
  induction fuel with
  | zero => intro n hn hf; omega
  | succ fuel ih =>
    intro n hn hf
    by_cases h2 : n < 2
    · simp only [natLog2, if_pos h2]
      omega
    · simp only [natLog2, if_neg h2]
      obtain ⟨hlo, hhi⟩ := ih (n / 2) (by omega) (by omega)
      constructor
      · rw [pow_succ]
        omega
      · rw [pow_succ, pow_succ] at *
        omega

theorem pow2le_iff (e : ℤ) (a b : ℕ) (hb : 0 < b) :
    pow2le e a b = true ↔ qpow2 e ≤ (a : ℚ) / (b : ℚ) := by
  have hbQ : (0 : ℚ) < (b : ℚ) := by exact_mod_cast hb
  unfold pow2le qpow2
  split
  · rw [le_div_iff₀ hbQ, decide_eq_true_eq]
    have hcast : ((2 ^ e.toNat : ℕ) : ℚ) * (b : ℚ) = ((b * 2 ^ e.toNat : ℕ) : ℚ) := by
      push_cast
      ring
    rw [hcast]
    exact (Nat.cast_le (α := ℚ)).symm
  · have hp : (0 : ℚ) < ((2 ^ (-e).toNat : ℕ) : ℚ) := by positivity
    rw [div_le_div_iff₀ hp hbQ, decide_eq_true_eq]
    have hcast : (a : ℚ) * ((2 ^ (-e).toNat : ℕ) : ℚ) = ((a * 2 ^ (-e).toNat : ℕ) : ℚ) := by
      push_cast
      ring
    rw [one_mul, hcast]
    exact (Nat.cast_le (α := ℚ)).symm

theorem intFloorLog2_spec (a b : ℕ) (ha : 0 < a) (hb : 0 < b) :
    qpow2 (intFloorLog2 a b) ≤ (a : ℚ) / (b : ℚ) ∧
    (a : ℚ) / (b : ℚ) < 2 * qpow2 (intFloorLog2 a b) := by
  have haQ : (0 : ℚ) < (a : ℚ) := by exact_mod_cast ha
  have hbQ : (0 : ℚ) < (b : ℚ) := by exact_mod_cast hb
  obtain ⟨hlaN, huaN⟩ := natLog2_spec a a ha (le_refl a)
  obtain ⟨hlbN, hubN⟩ := natLog2_spec b b hb (le_refl b)
  have hua : (a : ℚ) < (2 : ℚ) ^ (natLog2 a a + 1) := by exact_mod_cast huaN
  have hla : (2 : ℚ) ^ (natLog2 a a) ≤ (a : ℚ) := by exact_mod_cast hlaN
  have hub : (b : ℚ) < (2 : ℚ) ^ (natLog2 b b + 1) := by exact_mod_cast hubN
  have hlb : (2 : ℚ) ^ (natLog2 b b) ≤ (b : ℚ) := by exact_mod_cast hlbN
  unfold intFloorLog2
  split
  · rename_i h
    rw [pow2le_iff _ _ _ hb] at h
    refine ⟨h, ?_⟩
    calc (a : ℚ) / (b : ℚ)
        < (2 : ℚ) ^ (natLog2 a a + 1) / (2 : ℚ) ^ (natLog2 b b) := by gcongr
      _ = (2 : ℚ) ^ (((natLog2 a a + 1 : ℕ) : ℤ) - (natLog2 b b : ℤ)) := by
          rw [← zpow_natCast (2:ℚ) (natLog2 a a + 1), ← zpow_natCast (2:ℚ) (natLog2 b b),
            ← zpow_sub₀ (by norm_num : (2:ℚ) ≠ 0)]
      _ = 2 * qpow2 ((natLog2 a a : ℤ) - (natLog2 b b : ℤ)) := by
          rw [qpow2_eq_zpow,
            show ((natLog2 a a + 1 : ℕ) : ℤ) - (natLog2 b b : ℤ) =
              ((natLog2 a a : ℤ) - (natLog2 b b : ℤ)) + 1 by push_cast; omega,
            zpow_add_one₀ (by norm_num : (2:ℚ) ≠ 0)]
          ring_nf
  · rename_i h
    rw [pow2le_iff _ _ _ hb] at h
    constructor
    · calc qpow2 ((natLog2 a a : ℤ) - (natLog2 b b : ℤ) - 1)
          = (2 : ℚ) ^ ((natLog2 a a : ℕ) : ℤ) / (2 : ℚ) ^ (((natLog2 b b + 1 : ℕ)) : ℤ) := by
            rw [qpow2_eq_zpow, ← zpow_sub₀ (by norm_num : (2:ℚ) ≠ 0)]
            congr 1
            push_cast
            omega
        _ = (2 : ℚ) ^ (natLog2 a a) / (2 : ℚ) ^ (natLog2 b b + 1) := by
            rw [zpow_natCast, zpow_natCast]
        _ ≤ (a : ℚ) / (b : ℚ) := by gcongr
    · have h2 : (2:ℚ) * qpow2 ((natLog2 a a : ℤ) - (natLog2 b b : ℤ) - 1) =
          qpow2 ((natLog2 a a : ℤ) - (natLog2 b b : ℤ)) := by
        rw [qpow2_eq_zpow, qpow2_eq_zpow,
          show (natLog2 a a : ℤ) - (natLog2 b b : ℤ) =
            ((natLog2 a a : ℤ) - (natLog2 b b : ℤ) - 1) + 1 by ring,
          zpow_add_one₀ (by norm_num : (2:ℚ) ≠ 0)]
        ring_nf
      rw [h2]
      exact lt_of_not_le h

theorem flScale_snd_pos (a b : ℕ) (u : ℤ) (hb : 0 < b) : 0 < (flScale a b u).2 := by
  unfold flScale
  split <;> simp <;> positivity

theorem flScale_div (a b : ℕ) (u : ℤ) (hb : 0 < b) :
    (((flScale a b u).1 : ℕ) : ℚ) / (((flScale a b u).2 : ℕ) : ℚ) =
      ((a : ℚ) / (b : ℚ)) / qpow2 u := by
  have hbQ : ((b : ℕ) : ℚ) ≠ 0 := by positivity
  unfold flScale qpow2
  split
  · rename_i h
    have hp : ((2 ^ u.toNat : ℕ) : ℚ) ≠ 0 := by positivity
    push_cast
    field_simp
  · rename_i h
    have hp : ((2 ^ (-u).toNat : ℕ) : ℚ) ≠ 0 := by positivity
    push_cast
    field_simp

theorem roundNearestEven_err (A B : ℕ) (hB : 0 < B) :
    |((roundNearestEven A B : ℕ) : ℚ) - (A : ℚ) / (B : ℚ)| ≤ 1 / 2 := by
  have hBQ : (0 : ℚ) < (B : ℚ) := by exact_mod_cast hB
  have hrlt : A % B < B := Nat.mod_lt A hB
  have hmod : A % B + B * (A / B) = A := Nat.mod_add_div A B
  have hAQ : (A : ℚ) = (B : ℚ) * (A / B : ℕ) + ((A % B : ℕ) : ℚ) := by
    exact_mod_cast (by omega : A = B * (A / B) + A % B)
  have hdiv : (A : ℚ) / (B : ℚ) = ((A / B : ℕ) : ℚ) + ((A % B : ℕ) : ℚ) / (B : ℚ) := by
    rw [hAQ]
    field_simp
    ring
  unfold roundNearestEven
  have hr1 : ((A % B : ℕ) : ℚ) / (B : ℚ) < 1 := by
    rw [div_lt_one hBQ]
    exact_mod_cast hrlt
  have hr0 : (0 : ℚ) ≤ ((A % B : ℕ) : ℚ) / (B : ℚ) := by positivity
  split
  · rename_i h
    have hge : (1 : ℚ) / 2 ≤ ((A % B : ℕ) : ℚ) / (B : ℚ) := by
      rw [div_le_div_iff₀ (by norm_num) hBQ]
      have : (B : ℚ) < 2 * ((A % B : ℕ) : ℚ) := by exact_mod_cast h
      linarith
    rw [hdiv, abs_le]
    constructor <;> push_cast <;> linarith
  · split
    · rename_i h h2
      have hle : ((A % B : ℕ) : ℚ) / (B : ℚ) ≤ 1 / 2 := by
        rw [div_le_div_iff₀ hBQ (by norm_num)]
        have : 2 * ((A % B : ℕ) : ℚ) < (B : ℚ) := by exact_mod_cast h2
        linarith
      rw [hdiv, abs_le]
      constructor <;> linarith
    · rename_i h h2
      have heq : ((A % B : ℕ) : ℚ) / (B : ℚ) = 1 / 2 := by
        have hB2 : 2 * (A % B) = B := by omega
        have hB2Q : (2 : ℚ) * ((A % B : ℕ) : ℚ) = (B : ℚ) := by exact_mod_cast hB2
        rw [div_eq_div_iff (ne_of_gt hBQ) (by norm_num : (2:ℚ) ≠ 0)]
        linarith
      split
      · rw [hdiv, heq, abs_le]
        constructor <;> linarith
      · rw [hdiv, heq, abs_le]
        constructor <;> (push_cast; linarith)

theorem flN_err (a b : ℕ) (ha : 0 < a) (hb : 0 < b) :
    |flVal (flN a b) - (a : ℚ) / (b : ℚ)| ≤ ((a : ℚ) / (b : ℚ)) / 2 ^ 53 := by
  obtain ⟨hlo, hhi⟩ := intFloorLog2_spec a b ha hb
  set e : ℤ := intFloorLog2 a b with he
  set P : ℚ := qpow2 (e - 52) with hP
  have hPpos : 0 < P := qpow2_pos _
  have hAB := flScale_div a b (e - 52) hb
  have hBpos := flScale_snd_pos a b (e - 52) hb
  have herr := roundNearestEven_err (flScale a b (e - 52)).1 (flScale a b (e - 52)).2 hBpos
  rw [hAB] at herr
  set n : ℚ := ((roundNearestEven (flScale a b (e - 52)).1
    (flScale a b (e - 52)).2 : ℕ) : ℚ) with hn
  have hval : flVal (flN a b) = n * P := rfl
  have hkey : flVal (flN a b) - (a : ℚ) / (b : ℚ) = (n - ((a : ℚ) / (b : ℚ)) / P) * P := by
    rw [hval]
    field_simp
    ring_nf
  rw [hkey, abs_mul, abs_of_pos hPpos]
  have hP52 : P = qpow2 e / 2 ^ 52 := by
    rw [hP, qpow2_eq_zpow, qpow2_eq_zpow, zpow_sub₀ (by norm_num : (2:ℚ) ≠ 0)]
    norm_num
  calc |n - ((a : ℚ) / (b : ℚ)) / P| * P ≤ (1 / 2) * P := by
        have := herr
        gcongr
      _ = qpow2 e / 2 ^ 53 := by
        rw [hP52]
        ring
      _ ≤ ((a : ℚ) / (b : ℚ)) / 2 ^ 53 := by gcongr

theorem recip1024_val (p : ℕ × ℤ) (hp : 0 < p.1) :
    ((recip1024 p).1 : ℚ) / ((recip1024 p).2 : ℚ) = 1024 / flVal p := by
  have hpQ : (0 : ℚ) < (p.1 : ℚ) := by exact_mod_cast hp
  have h1024 : (1024 : ℚ) = (2 : ℚ) ^ (10 : ℤ) := by norm_num
  have hz : ((2:ℚ) ^ p.2) ≠ 0 := by
    rw [← qpow2_eq_zpow]
    exact ne_of_gt (qpow2_pos _)
  unfold recip1024 flVal
  rw [qpow2_eq_zpow]
  split
  · rename_i h
    have hc : ((2 ^ (10 - p.2).toNat : ℕ) : ℚ) = (2 : ℚ) ^ ((10 : ℤ) - p.2) := by
      rw [← qpow2_eq_zpow, qpow2, if_pos (by omega : (0:ℤ) ≤ 10 - p.2)]
    have key : (2:ℚ) ^ ((10:ℤ) - p.2) * (2:ℚ) ^ p.2 = (2:ℚ) ^ (10:ℤ) := by
      rw [← zpow_add₀ (by norm_num : (2:ℚ) ≠ 0)]
      congr 1
      ring
    rw [hc, h1024, div_eq_div_iff (ne_of_gt hpQ) (by positivity)]
    linear_combination (p.1 : ℚ) * key
  · rename_i h
    have hc : ((2 ^ (p.2 - 10).toNat : ℕ) : ℚ) = (2 : ℚ) ^ (p.2 - (10 : ℤ)) := by
      rw [← qpow2_eq_zpow, qpow2, if_pos (by omega : (0:ℤ) ≤ p.2 - 10)]
    have hprod : ((p.1 * 2 ^ (p.2 - 10).toNat : ℕ) : ℚ) =
        (p.1 : ℚ) * ((2 ^ (p.2 - 10).toNat : ℕ) : ℚ) := by
      push_cast
      ring
    have key : (2:ℚ) ^ (p.2 - (10:ℤ)) * (2:ℚ) ^ (10:ℤ) = (2:ℚ) ^ p.2 := by
      rw [← zpow_add₀ (by norm_num : (2:ℚ) ≠ 0)]
      congr 1
      ring
    rw [hprod, hc, h1024, div_eq_div_iff (by positivity) (by positivity)]
    linear_combination (-(p.1 : ℚ)) * key

theorem recip1024_pos (p : ℕ × ℤ) (hp : 0 < p.1) :
    0 < (recip1024 p).1 ∧ 0 < (recip1024 p).2 := by
  unfold recip1024
  split <;> constructor <;> simp <;> positivity

theorem roundAwayParts_eq_round (p : ℕ × ℤ) :
    (roundAwayParts p : ℤ) = round (flVal p) := by
  unfold roundAwayParts flVal
  split
  · rename_i h
    have hval : (p.1 : ℚ) * qpow2 p.2 = ((p.1 * 2 ^ p.2.toNat : ℕ) : ℚ) := by
      rw [qpow2, if_pos h]
      push_cast
      ring
    rw [hval, round_natCast]
  · rename_i h
    set k : ℕ := (-p.2).toNat with hk
    have hval : (p.1 : ℚ) * qpow2 p.2 = (p.1 : ℚ) / ((2 ^ k : ℕ) : ℚ) := by
      rw [qpow2, if_neg h]
      push_cast
      ring
    rw [hval, round_eq]
    have hhalf : (p.1 : ℚ) / ((2 ^ k : ℕ) : ℚ) + 1 / 2 =
        (((2 * p.1 + 2 ^ k : ℕ) : ℤ) : ℚ) / ((2 ^ (k + 1) : ℕ) : ℚ) := by
      have h2k : ((2 ^ k : ℕ) : ℚ) ≠ 0 := by positivity
      have h2k1 : ((2 ^ (k + 1) : ℕ) : ℚ) ≠ 0 := by positivity
      push_cast
      rw [pow_succ]
      field_simp
      ring
    rw [hhalf, Rat.floor_intCast_div_natCast]
    exact Int.natCast_div (2 * p.1 + 2 ^ k) (2 ^ (k + 1))

set_option maxHeartbeats 1000000 in
theorem chunkFactorF64_eq_round (f t : ℕ) (ht : 0 < t) (htf : t < f)
    (hf32 : f < 2 ^ 32) (hne : (2048 * t) % (2 * f) ≠ f) :
    (chunkFactorF64 f t : ℤ) = round ((1024 * t : ℚ) / (f : ℚ)) := by
  have hf : 0 < f := by omega
  have htQ : (0 : ℚ) < (t : ℚ) := by exact_mod_cast ht
  have hfQ : (0 : ℚ) < (f : ℚ) := by exact_mod_cast hf
  set R : ℚ := (f : ℚ) / (t : ℚ) with hR
  have hRgt1 : 1 < R := by
    rw [hR, lt_div_iff₀ htQ, one_mul]
    exact_mod_cast htf
  have hRpos : 0 < R := by linarith
  have e1 : |flVal (flN f t) - R| ≤ R / 2 ^ 53 := flN_err f t hf ht
  set q1 : ℚ := flVal (flN f t) with hq1
  clear_value q1
  have he1 := abs_le.mp e1
  have hq1lb : R / 2 ≤ q1 := by nlinarith
  have hq1pos : 0 < q1 := by nlinarith
  have hn1pos : 0 < (flN f t).1 := by
    by_contra h0
    have hz : (flN f t).1 = 0 := by omega
    have hq10 : q1 = 0 := by
      rw [hq1, flVal, hz]
      norm_num
    linarith
  obtain ⟨hA2, hB2⟩ := recip1024_pos (flN f t) hn1pos
  have hx2eq : (((recip1024 (flN f t)).1 : ℕ) : ℚ) / (((recip1024 (flN f t)).2 : ℕ) : ℚ) =
      1024 / q1 := by rw [hq1]; exact recip1024_val (flN f t) hn1pos
  set A2 : ℕ := (recip1024 (flN f t)).1 with hA2def
  set B2 : ℕ := (recip1024 (flN f t)).2 with hB2def
  clear_value A2 B2
  set y : ℚ := (1024 * t : ℚ) / (f : ℚ) with hy
  have hypos : 0 < y := by positivity
  have hyR : y * R = 1024 := by
    rw [hy, hR]
    field_simp
  have hylt : y < 1024 := by nlinarith
  set x2 : ℚ := (A2 : ℚ) / (B2 : ℚ) with hx2
  have hx2pos : 0 < x2 := by
    have hA2Q : (0:ℚ) < (A2 : ℚ) := by exact_mod_cast hA2
    have hB2Q : (0:ℚ) < (B2 : ℚ) := by exact_mod_cast hB2
    positivity
  have hxq : x2 * q1 = 1024 := by
    rw [hx2eq]
    field_simp
  have e2 : |flVal (flN A2 B2) - x2| ≤ x2 / 2 ^ 53 := flN_err A2 B2 hA2 hB2
  set q2 : ℚ := flVal (flN A2 B2) with hq2
  clear_value q2
  have habs1 : |R - q1| ≤ R / 2 ^ 53 := by
    rw [abs_sub_comm]
    exact e1
  have habs1' := abs_le.mp habs1
  have hupper : x2 - y ≤ y / 2 ^ 52 := by
    rw [← mul_le_mul_right hq1pos]
    have h1 : (x2 - y) * q1 = y * (R - q1) := by linear_combination hxq - hyR
    rw [h1]
    have h2 : y * (R - q1) ≤ y * (R / 2 ^ 53) :=
      mul_le_mul_of_nonneg_left habs1'.2 (le_of_lt hypos)
    have h3 : y * (R / 2 ^ 53) ≤ y / 2 ^ 52 * q1 := by nlinarith
    linarith
  have hlower : y - x2 ≤ y / 2 ^ 52 := by
    rw [← mul_le_mul_right hq1pos]
    have h1 : (y - x2) * q1 = y * (q1 - R) := by linear_combination hyR - hxq
    rw [h1]
    have h2 : y * (q1 - R) ≤ y * (R / 2 ^ 53) :=
      mul_le_mul_of_nonneg_left (by linarith [habs1'.1]) (le_of_lt hypos)
    have h3 : y * (R / 2 ^ 53) ≤ y / 2 ^ 52 * q1 := by nlinarith
    linarith
  have hx2le : x2 ≤ 2 * y := by nlinarith
  have hq2x2 : |q2 - x2| ≤ y / 2 ^ 52 := by
    have hx253 : x2 / 2 ^ 53 ≤ y / 2 ^ 52 := by nlinarith
    calc |q2 - x2| ≤ x2 / 2 ^ 53 := e2
      _ ≤ y / 2 ^ 52 := hx253
  have hq2y : |q2 - y| ≤ y / 2 ^ 51 := by
    have htri : |q2 - y| ≤ |q2 - x2| + |x2 - y| := abs_sub_le q2 x2 y
    have hx2yabs : |x2 - y| ≤ y / 2 ^ 52 := abs_le.mpr ⟨by linarith, hupper⟩
    have hsum : y / 2 ^ 52 + y / 2 ^ 52 = y / 2 ^ 51 := by ring
    linarith
  have hmargin : |q2 - y| < 1 / (2 * (f : ℚ)) := by
    have h1 : y / 2 ^ 51 < 1024 / 2 ^ 51 := by gcongr
    have h2 : (1024 : ℚ) / 2 ^ 51 < 1 / (2 * (f : ℚ)) := by
      rw [div_lt_div_iff₀ (by norm_num) (by positivity)]
      have hfQ32 : (f : ℚ) < 2 ^ 32 := by exact_mod_cast hf32
      nlinarith
    linarith
  have htie : ∀ m : ℤ, 1 / (2 * (f : ℚ)) ≤ |y - ((m : ℚ) + 1 / 2)| := by
    intro m
    have hNne : (2048 * (t : ℤ) - (2 * m + 1) * (f : ℤ)) ≠ 0 := by
      intro h0
      apply hne
      have htZ : (0 : ℤ) < (t : ℤ) := by exact_mod_cast ht
      have hfZ : (0 : ℤ) < (f : ℤ) := by exact_mod_cast hf
      have hm0 : 0 ≤ m := by nlinarith
      have hmn : ((m.toNat : ℕ) : ℤ) = m := Int.toNat_of_nonneg hm0
      have hNat : 2048 * t = (2 * m.toNat + 1) * f := by
        have hZ : (2048 * t : ℤ) = (2 * m + 1) * (f : ℤ) := by linarith
        rw [← hmn] at hZ
        exact_mod_cast hZ
      calc (2048 * t) % (2 * f) = ((2 * m.toNat + 1) * f) % (2 * f) := by rw [hNat]
        _ = (f + m.toNat * (2 * f)) % (2 * f) := by ring_nf
        _ = f % (2 * f) := by rw [Nat.add_mul_mod_self_right]
        _ = f := Nat.mod_eq_of_lt (by omega)
    have hform : y - ((m : ℚ) + 1 / 2) =
        ((2048 * (t : ℤ) - (2 * m + 1) * (f : ℤ) : ℤ) : ℚ) / (2 * (f : ℚ)) := by
      rw [hy]
      push_cast
      field_simp
      ring
    rw [hform, abs_div, abs_of_pos (show (0:ℚ) < 2 * (f:ℚ) by positivity)]
    have h1le : (1 : ℚ) ≤ |((2048 * (t : ℤ) - (2 * m + 1) * (f : ℤ) : ℤ) : ℚ)| := by
      rw [← Int.cast_abs]
      exact_mod_cast Int.one_le_abs hNne
    gcongr
  set m : ℤ := round y with hmdef
  have hmfl : m = ⌊y + 1 / 2⌋ := round_eq y
  have hfl : ((⌊y + 1/2⌋ : ℤ) : ℚ) ≤ y + 1/2 := Int.floor_le _
  have hfu : y + 1/2 < (⌊y + 1/2⌋ : ℚ) + 1 := Int.lt_floor_add_one _
  rw [← hmfl] at hfl hfu
  have hlowm : (m : ℚ) + 1 / (2 * (f:ℚ)) ≤ y + 1/2 := by
    have h := htie (m - 1)
    have hrw : y - (((m - 1 : ℤ) : ℚ) + 1/2) = y + 1/2 - (m : ℚ) := by push_cast; ring
    rw [hrw, abs_of_nonneg (by linarith)] at h
    linarith
  have hupm : y + 1/2 ≤ (m : ℚ) + 1 - 1 / (2 * (f:ℚ)) := by
    have h := htie m
    have hrw : y - ((m : ℚ) + 1/2) = -((m:ℚ) + 1 - (y + 1/2)) := by ring
    rw [hrw, abs_neg, abs_of_nonneg (by linarith)] at h
    linarith
  have hm2 := abs_lt.mp hmargin
  have hround2 : round q2 = m := by
    rw [round_eq]
    apply Int.floor_eq_iff.mpr
    constructor
    · linarith [hm2.1, hlowm]
    · linarith [hm2.2, hupm]
  have hcf : chunkFactorF64 f t = roundAwayParts (flN A2 B2) := by
    rw [chunkFactorF64, ← hA2def, ← hB2def]
  calc (chunkFactorF64 f t : ℤ) = (roundAwayParts (flN A2 B2) : ℤ) := by rw [hcf]
    _ = round q2 := by rw [hq2]; exact roundAwayParts_eq_round (flN A2 B2)
    _ = m := hround2

/-- At an exact half-integer tie the doubly rounded binary64 value can
fall below the tie and round down where exact-rational rounding half
away from zero rounds up: at 2048 → 93 Hz, `1024·93/2048 = 46.5`
exactly, but the code computes chunk factor 46 and chunk size
`46 · 22 = 1012`, while the exact formula gives `47 · 22 = 1034`. -/
theorem resampleChunkSize_tie :
    resampleChunkSize 2048 93 = 1012 ∧
    (round ((1024 * 93 : ℚ) / (2048 : ℚ))).toNat * (2048 / 93) = 1034 := by
  constructor
  · decide
  · norm_num [round_eq]
    decide

/-! ## Resampler chunk-size selection -/

/-- C6 (counterexample): at the common rate pair 44100 → 16000 Hz the code
selects a 744-sample chunk — `round(1024/ratio) = 372` multiplied by the
*integer-truncated* ratio `44100/16000 as usize = 2` — while the
specification's formula `round(1024/ratio) * ratio` with the exact ratio
`2.75625` gives `1025.325`, not 744. -/
theorem C6_chunk_size_counterexample :
    resampleChunkSize 44100 16000 = 744 ∧
    chunkSizeClaimed 44100 16000 ≠ 744 := by
  constructor
  · decide
  · unfold chunkSizeClaimed
    norm_num [round_eq, max_def]

/-- C6 (amended): when upsampling or at equal rates (`¬ to < from`) the
selected chunk size is exactly 512; when downsampling (`to < from`, with
`to > 0` and the rates in `u32` range) the chunk size is the binary64
computation `round(1024 / ratio)` multiplied by the integer-truncated
ratio `from / to`, floored at 64, and whenever the exact rational
`1024·to/from` is not a half-integer (the tie condition is
`(2048·to) % (2·from) = from`) that binary64 rounding coincides with
rounding the exact rational half away from zero. -/
theorem C6_chunk_size_formula (f t : Nat) :
    (¬ t < f → resampleChunkSize f t = 512) ∧
    (0 < t → t < f → f < 2 ^ 32 → (2048 * t) % (2 * f) ≠ f →
      resampleChunkSize f t =
        max ((round ((1024 * t : ℚ) / (f : ℚ))).toNat * (f / t)) 64) := by
  constructor
  · intro h
    simp [resampleChunkSize, h]
  · intro ht htf hf32 hne
    have h := chunkFactorF64_eq_round f t ht htf hf32 hne
    have hkey : chunkFactorF64 f t = (round ((1024 * t : ℚ) / (f : ℚ))).toNat := by
      omega
    unfold resampleChunkSize
    rw [if_pos htf, hkey]

/-- Witness for `C6_chunk_size_formula`: the upsampling branch at
16000 → 48000 Hz (chunk 512) and the downsampling branch at the non-tie
pair 44100 → 16000 Hz (chunk 744). -/
theorem C6_chunk_size_formula_witness :
    (¬ (48000 < 16000) ∧ resampleChunkSize 16000 48000 = 512) ∧
    (0 < 16000 ∧ 16000 < 44100 ∧ 44100 < 2 ^ 32 ∧
      (2048 * 16000) % (2 * 44100) ≠ 44100 ∧
      resampleChunkSize 44100 16000 =
        max ((round ((1024 * 16000 : ℚ) / (44100 : ℚ))).toNat * (44100 / 16000)) 64) :=
  ⟨⟨by norm_num, (C6_chunk_size_formula 16000 48000).1 (by norm_num)⟩,
   by norm_num, by norm_num, by norm_num, by norm_num,
   (C6_chunk_size_formula 44100 16000).2 (by norm_num) (by norm_num) (by norm_num)
     (by norm_num)⟩

/-! ## Sample-rate conversion: error behaviour and tail truncation -/

/-- Helper: with a working resampler, the conversion loop either completes
with a full output or stops at the first failing chunk with a descriptive
error — it never aborts, and an error result carries no samples. -/
theorem resampleLoop_ok_or_descriptive_err
    (proc : Nat → List ℚ → Except String (List ℚ)) (cs f t : Nat)
    (hcs : 0 < cs) :
    ∀ (fuel : Nat) (input : List ℚ) (idx : Nat) (acc : List ℚ),
      input.length < fuel →
      (∃ out, resampleLoop proc cs f t fuel input idx acc = Outcome.ok out) ∨
      (∃ e, resampleLoop proc cs f t fuel input idx acc =
          Outcome.err ("Failed to resample chunk: " ++ e) ∨
        resampleLoop proc cs f t fuel input idx acc =
          Outcome.err ("Failed to resample final chunk: " ++ e)) := by
  intro fuel
  induction fuel with
  | zero => intro input idx acc h; omega
  | succ fuel ih =>
    intro input idx acc h
    match input with
    | [] => exact Or.inl ⟨acc, rfl⟩
    | x :: xs =>
      simp only [resampleLoop]
      split
      · cases hp : proc idx ((x :: xs) ++ List.replicate (cs - (x :: xs).length) 0) with
        | error e => exact Or.inr ⟨e, Or.inr (by simp [hp])⟩
        | ok out =>
          exact Or.inl ⟨acc ++ out.take (min ((x :: xs).length * t / f) out.length),
            by simp [hp]⟩
      · cases hp : proc idx ((x :: xs).take cs) with
        | error e => exact Or.inr ⟨e, Or.inl (by simp [hp])⟩
        | ok out =>
          have hlen : ((x :: xs).drop cs).length < fuel := by
            simp only [List.length_drop]
            simp only [List.length_cons] at h ⊢
            omega
          have := ih ((x :: xs).drop cs) (idx + 1) (acc ++ out) hlen
          simpa [hp] using this

/-- Helper: the chunk size selected by `resample_audio` is always positive
(at least 64 when downsampling, 512 otherwise). -/
theorem resampleChunkSize_pos (f t : Nat) : 0 < resampleChunkSize f t := by
  unfold resampleChunkSize
  split <;> omega

/-- C3 (counterexample): a resampler *construction* error is not returned
to the caller as a failure value — the source unwraps
`FftFixedInOut::new` with `.expect("Failed to create resampler")`
(whisper.rs:275), so the process aborts. -/
theorem C3_construction_error_aborts :
    resample_audio ctorFailing [0] 48000 16000 =
      Outcome.panicked "Failed to create resampler" := rfl

/-- C3 (amended): when the resampler is constructed successfully, the
conversion either returns the complete output or fails atomically with a
descriptive per-chunk error (never an abort, and an error carries no
partial output); a resampler *construction* error, however, aborts the
process via `.expect` instead of being returned. -/
theorem C3_resample_error_behaviour :
    (∀ (ctor : Nat → Nat → Nat → Except String (Nat → List ℚ → Except String (List ℚ)))
      (proc : Nat → List ℚ → Except String (List ℚ)) (input : List ℚ) (f t : Nat),
      ctor f t (resampleChunkSize f t) = Except.ok proc →
      (∃ out, resample_audio ctor input f t = Outcome.ok out) ∨
      (∃ e, resample_audio ctor input f t =
          Outcome.err ("Failed to resample chunk: " ++ e) ∨
        resample_audio ctor input f t =
          Outcome.err ("Failed to resample final chunk: " ++ e))) ∧
    (∀ (emsg : String) (input : List ℚ) (f t : Nat),
      resample_audio (fun _ _ _ => Except.error emsg) input f t =
        Outcome.panicked "Failed to create resampler") := by
  constructor
  · intro ctor proc input f t hctor
    have h := resampleLoop_ok_or_descriptive_err proc (resampleChunkSize f t)
      f t (resampleChunkSize_pos f t) (input.length + 1) input 0 []
      (Nat.lt_succ_self _)
    simpa [resample_audio, hctor] using h
  · intro emsg input f t
    rfl

/-- Witness for `C3_resample_error_behaviour`: a resampler whose processing
fails on every chunk (`ctorProcFailing`) yields a descriptive error on a
short input, and a failing constructor (`ctorFailing`) aborts. -/
theorem C3_resample_error_behaviour_witness :
    ((∃ out, resample_audio ctorProcFailing [1, 1] 16000 48000 = Outcome.ok out) ∨
     (∃ e, resample_audio ctorProcFailing [1, 1] 16000 48000 =
         Outcome.err ("Failed to resample chunk: " ++ e) ∨
       resample_audio ctorProcFailing [1, 1] 16000 48000 =
         Outcome.err ("Failed to resample final chunk: " ++ e))) ∧
    resample_audio ctorFailing [1, 1] 16000 48000 =
      Outcome.panicked "Failed to create resampler" :=
  ⟨C3_resample_error_behaviour.1 ctorProcFailing _ [1, 1] 16000 48000 rfl,
   C3_resample_error_behaviour.2 "fft size unsupported" [1, 1] 16000 48000⟩

/-- C5 (amended): an input shorter than the selected chunk size is
zero-padded to a full chunk before being fed to the resampler, and the
output is truncated to `min(⌊len·to/from⌋, produced_length)` samples — the
truncating `as usize` cast of `len as f64 * to as f64 / from as f64`
(whisper.rs:301), capped by the produced buffer length, not the rounded
value the specification states.  (`0 < f` is the condition under which the
truncating f64 cast coincides with natural division.) -/
theorem C5_tail_truncation
    (ctor : Nat → Nat → Nat → Except String (Nat → List ℚ → Except String (List ℚ)))
    (proc : Nat → List ℚ → Except String (List ℚ)) (input : List ℚ)
    (f t : Nat) (out : List ℚ) (_hf : 0 < f) (hlen0 : 0 < input.length)
    (hlen : input.length < resampleChunkSize f t)
    (hctor : ctor f t (resampleChunkSize f t) = Except.ok proc)
    (hproc : proc 0 (input ++ List.replicate (resampleChunkSize f t - input.length) 0) =
      Except.ok out) :
    resample_audio ctor input f t =
      Outcome.ok (out.take (min (input.length * t / f) out.length)) := by
  match input, hlen0 with
  | x :: xs, _ =>
    simp only [List.cons_append, List.length_cons] at hproc
    simp only [resample_audio, hctor]
    simp only [resampleLoop]
    rw [if_pos hlen]
    simp [hproc]

set_option maxRecDepth 10000 in
/-- Witness for `C5_tail_truncation`: three samples at 48000 → 16000 Hz
(chunk size 1023) are padded with 1020 zeros; of the 270 produced samples
exactly `⌊3·16000/48000⌋ = 1` is kept. -/
theorem C5_tail_truncation_witness :
    resample_audio ctorFixed [3, 3, 3] 48000 16000 = Outcome.ok [0] :=
  (C5_tail_truncation ctorFixed procFixed [3, 3, 3] 48000 16000
    (List.replicate 270 0) (by decide) (by decide) (by decide) rfl rfl).trans
    (by decide)

set_option maxRecDepth 10000 in
/-- C5 (counterexample): a two-sample tail at 44100 → 16000 Hz produces
`⌊2·16000/44100⌋ = 0` output samples, while the specification's formula
`round(2·16000/44100) = round(0.7256…) = 1` demands exactly one. -/
theorem C5_tail_round_counterexample :
    resample_audio ctorFixed [1, 1] 44100 16000 = Outcome.ok [] ∧
    round ((2 * 16000 : ℚ) / 44100) = 1 := by
  constructor
  · decide
  · rw [round_eq]
    norm_num

/-! ## Model download: error paths -/

/-- Helper: whenever the download loop ends in an error, no file exists at
the final filename (only the rename step, which also reports success,
creates it). -/
theorem dlLoop_error_no_final (total : Nat) (syncRes renameRes : Except String Unit) :
    ∀ (stream : List StreamItem) (d : Nat) (e : String),
      (dlLoop total syncRes renameRes stream d).result = Except.error e →
      (dlLoop total syncRes renameRes stream d).fs.finalExists = false := by
  intro stream
  induction stream with
  | nil =>
    intro d e h
    cases hs : syncRes with
    | error es => simp [dlLoop, hs]
    | ok u =>
      cases u
      cases hr : renameRes with
      | error er => simp [dlLoop, hs, hr]
      | ok u' =>
        cases u'
        simp [dlLoop, hs, hr] at h
  | cons it rest ih =>
    intro d e h
    cases it with
    | chunk len w =>
      cases w with
      | error ew => simp [dlLoop]
      | ok u =>
        cases u
        simp only [dlLoop] at h ⊢
        exact ih (d + len) e h
    | terr et => simp [dlLoop]

/-- Helper: a transport error after a prefix of successfully received and
written chunks removes the temp file, emits (after the progress events for
the prefix) a failure-completion event carrying the error description, and
returns the error. -/
theorem dlLoop_transport_error (total : Nat) (syncRes renameRes : Except String Unit) :
    ∀ (pre : List StreamItem),
      (∀ it ∈ pre, ∃ l, it = StreamItem.chunk l (Except.ok ())) →
      ∀ (d : Nat) (e : String),
      ∃ evs, dlLoop total syncRes renameRes (pre ++ [StreamItem.terr e]) d =
          ⟨Except.error ("Download failed: " ++ e),
           evs ++ [DlEvent.complete false (some ("Download failed: " ++ e))],
           ⟨false, false⟩⟩ ∧
        ∀ ev ∈ evs, ∃ p dd tt, ev = DlEvent.progress p dd tt := by
  intro pre
  induction pre with
  | nil =>
    intro _ d e
    exact ⟨[], rfl, by simp⟩
  | cons it rest ih =>
    intro hpre d e
    obtain ⟨l, rfl⟩ := hpre it (by simp)
    obtain ⟨evs, heq, hprog⟩ :=
      ih (fun x hx => hpre x (by simp [hx])) (d + l) e
    refine ⟨DlEvent.progress ((((d + l : Nat)) * 100 : ℚ) / (total : ℚ)) (d + l) total :: evs,
      ?_, ?_⟩
    · simp only [List.cons_append, dlLoop]
      simp only [List.append_eq]
      rw [heq]
    · intro ev hev
      cases hev with
      | head => exact ⟨_, _, _, rfl⟩
      | tail b hev => exact hprog ev hev

/-- Helper: a write error on some received chunk makes the loop return the
error *without* emitting any completion event (only the progress events of
the previously written chunks appear) and *without* removing the temp
file. -/
theorem dlLoop_write_error (total : Nat) (syncRes renameRes : Except String Unit) :
    ∀ (pre : List StreamItem),
      (∀ it ∈ pre, ∃ l, it = StreamItem.chunk l (Except.ok ())) →
      ∀ (d : Nat) (len : Nat) (e : String) (rest : List StreamItem),
      ∃ evs, dlLoop total syncRes renameRes
          (pre ++ StreamItem.chunk len (Except.error e) :: rest) d =
          ⟨Except.error ("Failed to write chunk: " ++ e), evs, ⟨false, true⟩⟩ ∧
        ∀ ev ∈ evs, ∃ p dd tt, ev = DlEvent.progress p dd tt := by
  intro pre
  induction pre with
  | nil =>
    intro _ d len e rest
    exact ⟨[], rfl, by simp⟩
  | cons it rest' ih =>
    intro hpre d len e rest
    obtain ⟨l, rfl⟩ := hpre it (by simp)
    obtain ⟨evs, heq, hprog⟩ :=
      ih (fun x hx => hpre x (by simp [hx])) (d + l) len e rest
    refine ⟨DlEvent.progress ((((d + l : Nat)) * 100 : ℚ) / (total : ℚ)) (d + l) total :: evs,
      ?_, ?_⟩
    · simp only [List.cons_append, dlLoop]
      simp only [List.append_eq]
      rw [heq]
    · intro ev hev
      cases hev with
      | head => exact ⟨_, _, _, rfl⟩
      | tail b hev => exact hprog ev hev

/-- C4 (counterexample): the final file being absent, a *write* error on
the very first received chunk propagates the error but emits no
failure-completion event (`events = []`) and leaves the partial temp file
on disk (`tmpExists = true`) — the claim requires the temp file to be
deleted and a failure event to be emitted on any write error. -/
theorem C4_write_error_counterexample :
    download "large-v3-turbo-q8_0" ⟨false, false⟩ (Except.ok ()) (some 100)
      (Except.ok ()) [StreamItem.chunk 10 (Except.error "disk full")]
      (Except.ok ()) (Except.ok ()) =
      ⟨Except.error ("Failed to write chunk: disk full"), [], ⟨false, true⟩⟩ := rfl

/-- C4 (amended): with the final file absent, (1) a mid-stream *transport*
error deletes the temp file, emits a failure-completion event carrying the
error description after the prefix's progress events, and propagates the
error; (2) a *write* error propagates the error but emits no completion
event and leaves the temp file in place; (3) in every error outcome no
file is left at the final filename. -/
theorem C4_download_error_behaviour :
    (∀ (id : String) (info : WhisperModelInfo) (fs0 : DlFs) (total : Nat)
      (pre : List StreamItem) (e : String) (syncRes renameRes : Except String Unit),
      WhisperModelInfo.get_by_id id = some info → fs0.finalExists = false →
      (∀ it ∈ pre, ∃ l, it = StreamItem.chunk l (Except.ok ())) →
      ∃ evs, download id fs0 (Except.ok ()) (some total) (Except.ok ())
          (pre ++ [StreamItem.terr e]) syncRes renameRes =
          ⟨Except.error ("Download failed: " ++ e),
           evs ++ [DlEvent.complete false (some ("Download failed: " ++ e))],
           ⟨false, false⟩⟩ ∧
        ∀ ev ∈ evs, ∃ p dd tt, ev = DlEvent.progress p dd tt) ∧
    (∀ (id : String) (info : WhisperModelInfo) (fs0 : DlFs) (total : Nat)
      (pre : List StreamItem) (len : Nat) (e : String) (rest : List StreamItem)
      (syncRes renameRes : Except String Unit),
      WhisperModelInfo.get_by_id id = some info → fs0.finalExists = false →
      (∀ it ∈ pre, ∃ l, it = StreamItem.chunk l (Except.ok ())) →
      ∃ evs, download id fs0 (Except.ok ()) (some total) (Except.ok ())
          (pre ++ StreamItem.chunk len (Except.error e) :: rest) syncRes renameRes =
          ⟨Except.error ("Failed to write chunk: " ++ e), evs, ⟨false, true⟩⟩ ∧
        ∀ ev ∈ evs, ∃ p dd tt, ev = DlEvent.progress p dd tt) ∧
    (∀ (id : String) (fs0 : DlFs) (sendRes : Except String Unit)
      (contentLength : Option Nat) (createRes : Except String Unit)
      (stream : List StreamItem) (syncRes renameRes : Except String Unit) (e : String),
      fs0.finalExists = false →
      (download id fs0 sendRes contentLength createRes stream syncRes renameRes).result =
        Except.error e →
      (download id fs0 sendRes contentLength createRes stream syncRes
        renameRes).fs.finalExists = false) := by
  refine ⟨?_, ?_, ?_⟩
  · intro id info fs0 total pre e syncRes renameRes hid hfs hpre
    obtain ⟨evs, heq, hprog⟩ :=
      dlLoop_transport_error total syncRes renameRes pre hpre 0 e
    exact ⟨evs, by simp [download, hid, hfs, heq], hprog⟩
  · intro id info fs0 total pre len e rest syncRes renameRes hid hfs hpre
    obtain ⟨evs, heq, hprog⟩ :=
      dlLoop_write_error total syncRes renameRes pre hpre 0 len e rest
    exact ⟨evs, by simp [download, hid, hfs, heq], hprog⟩
  · intro id fs0 sendRes contentLength createRes stream syncRes renameRes e hfs hres
    cases hid : WhisperModelInfo.get_by_id id with
    | none => simp [download, hid, hfs]
    | some info =>
      cases hsend : sendRes with
      | error es => simp [download, hid, hfs, hsend]
      | ok u =>
        cases u
        cases contentLength with
        | none => simp [download, hid, hfs, hsend]
        | some total =>
          cases hcreate : createRes with
          | error ec => simp [download, hid, hfs, hsend, hcreate]
          | ok u' =>
            cases u'
            simp only [download, hid, hfs, hsend, hcreate, Bool.false_eq_true,
              if_false] at hres ⊢
            exact dlLoop_error_no_final total syncRes renameRes stream 0 e hres

/-- Witness for `C4_download_error_behaviour`: a transport error after one
good 10-byte chunk, a write error on the first chunk, and the no-final-file
invariant at a failed `send`. -/
theorem C4_download_error_behaviour_witness :
    (∃ evs, download "large-v3-turbo-q8_0" ⟨false, false⟩ (Except.ok ()) (some 100)
        (Except.ok ())
        ([StreamItem.chunk 10 (Except.ok ())] ++ [StreamItem.terr "conn reset"])
        (Except.ok ()) (Except.ok ()) =
        ⟨Except.error ("Download failed: " ++ "conn reset"),
         evs ++ [DlEvent.complete false (some ("Download failed: " ++ "conn reset"))],
         ⟨false, false⟩⟩ ∧
      ∀ ev ∈ evs, ∃ p dd tt, ev = DlEvent.progress p dd tt) ∧
    (download "large-v3-turbo-q8_0" ⟨false, true⟩ (Except.error "offline") none
      (Except.ok ()) [] (Except.ok ()) (Except.ok ())).fs.finalExists = false :=
  ⟨C4_download_error_behaviour.1 "large-v3-turbo-q8_0" _ ⟨false, false⟩ 100
    [StreamItem.chunk 10 (Except.ok ())] "conn reset" (Except.ok ()) (Except.ok ())
    rfl rfl (by intro it hit; simp at hit; exact ⟨10, hit⟩),
   C4_download_error_behaviour.2.2 "large-v3-turbo-q8_0" ⟨false, true⟩
    (Except.error "offline") none (Except.ok ()) [] (Except.ok ()) (Except.ok ())
    "Failed to start download: offline" rfl rfl⟩

/-! ## Chunked transcription -/

/-- Helper: a string append with a non-empty right part is non-empty. -/
theorem append_ne_empty_right (s t : String) (h : t ≠ "") : s ++ t ≠ "" := by
  intro hc
  apply h
  have hl := congrArg String.length hc
  rw [String.length_append] at hl
  have h0 : "".length = 0 := rfl
  have ht : t.length = 0 := by omega
  cases t with
  | mk data =>
    cases data with
    | nil => rfl
    | cons a as => simp [String.length] at ht

/-- Helper: a string append with a non-empty left part is non-empty. -/
theorem append_ne_empty_left (s t : String) (h : s ≠ "") : s ++ t ≠ "" := by
  intro hc
  apply h
  have hl := congrArg String.length hc
  rw [String.length_append] at hl
  have h0 : "".length = 0 := rfl
  have hs : s.length = 0 := by omega
  cases s with
  | mk data =>
    cases data with
    | nil => rfl
    | cons a as => simp [String.length] at hs

/-- Helper: the space-join of a non-empty list of non-empty texts is
non-empty. -/
theorem spaceJoin_ne_empty : ∀ (l : List String), (∀ x ∈ l, x ≠ "") → l ≠ [] →
    spaceJoin l ≠ "" := by
  intro l hl hne
  match l with
  | [x] => exact hl x (by simp)
  | x :: y :: ys =>
    show x ++ " " ++ spaceJoin (y :: ys) ≠ ""
    exact append_ne_empty_left _ _ (append_ne_empty_left x " " (hl x (by simp)))

/-- Helper: appending one text to a non-empty space-join inserts one
separator. -/
theorem spaceJoin_snoc : ∀ (l : List String) (t : String), l ≠ [] →
    spaceJoin (l ++ [t]) = spaceJoin l ++ " " ++ t := by
  intro l
  induction l with
  | nil => intro t h; exact absurd rfl h
  | cons x rest ih =>
    intro t _
    cases rest with
    | nil => rfl
    | cons y ys =>
      show x ++ " " ++ spaceJoin ((y :: ys) ++ [t]) = x ++ " " ++ spaceJoin (y :: ys) ++ " " ++ t
      rw [ih t (by simp), ← String.append_assoc, ← String.append_assoc]

/-- Helper: the source's accumulation step (append with a space separator
unless the accumulator is empty) extends a space-join by one text, provided
the already-joined texts are non-empty — which they are, being trimmed
non-empty chunk texts. -/
theorem accStep_spaceJoin (l : List String) (t : String) (hl : ∀ x ∈ l, x ≠ "") :
    accStep (spaceJoin l) t = spaceJoin (l ++ [t]) := by
  cases l with
  | nil => rfl
  | cons x xs =>
    have hne := spaceJoin_ne_empty (x :: xs) hl (by simp)
    rw [accStep, if_neg hne, spaceJoin_snoc (x :: xs) t (by simp)]

/-- Helper: full characterization of the per-chunk loop of
`transcribe_chunked`.  If every chunk decodes successfully with trimmed
text `ts i`, the loop started at index `j` with the non-empty texts `prev`
already accumulated returns the space-join of `prev` and the non-empty
entries of `ts`, and invokes the callback exactly once per non-empty
entry, passing the accumulated text so far and
`is_final = (chunk index = total_chunks - 1)`. -/
theorem chunkLoop_char (decode : List ℚ → Except String String) (cs K : Nat) :
    ∀ (bs : List (List ℚ)) (ts : List String) (j : Nat) (prev : List String)
      (c : List (String × Bool)),
      List.Forall₂ (fun b t => ∃ raw, decode (padTo cs b) = Except.ok raw ∧
        strTrim raw = t) bs ts →
      (∀ x ∈ prev, x ≠ "") →
      chunkLoop decode cs K bs j (spaceJoin prev) c =
        Outcome.ok (spaceJoin (prev ++ ts.filter (fun s => s ≠ "")),
          c ++ (List.range ts.length).filterMap (fun i =>
            if ts.getD i "" = "" then none
            else some (spaceJoin (prev ++ (ts.take (i + 1)).filter (fun s => s ≠ "")),
              decide (j + i = K - 1)))) := by
  intro bs ts j prev c h
  induction h generalizing j prev c with
  | nil =>
    intro hprev
    simp [chunkLoop]
  | @cons b t bs' ts' hr hrest ih =>
    intro hprev
    obtain ⟨raw, hdec, htrim⟩ := hr
    have hts : (t :: ts').length = ts'.length + 1 := rfl
    simp only [chunkLoop, hdec, htrim]
    by_cases ht : t = ""
    · rw [if_pos ht]
      rw [ih (j + 1) prev c hprev]
      have hfilter : (t :: ts').filter (fun s => s ≠ "") =
          ts'.filter (fun s => s ≠ "") := by
        simp [List.filter_cons, ht]
      have hcalls :
          (List.range (t :: ts').length).filterMap (fun i =>
            if (t :: ts').getD i "" = "" then none
            else some (spaceJoin (prev ++ ((t :: ts').take (i + 1)).filter (fun s => s ≠ "")),
              decide (j + i = K - 1))) =
          (List.range ts'.length).filterMap (fun i =>
            if ts'.getD i "" = "" then none
            else some (spaceJoin (prev ++ (ts'.take (i + 1)).filter (fun s => s ≠ "")),
              decide (j + 1 + i = K - 1))) := by
        rw [hts, List.range_succ_eq_map, List.filterMap_cons, List.filterMap_map]
        have h0 : (if (t :: ts').getD 0 "" = "" then
            (none : Option (String × Bool))
            else some (spaceJoin (prev ++ ((t :: ts').take (0 + 1)).filter (fun s => s ≠ "")),
              decide (j + 0 = K - 1))) = none := by
          simp [ht]
        rw [h0]
        apply List.filterMap_congr
        intro i hi
        have hidx : j + (i + 1) = j + 1 + i := by omega
        simp [Function.comp, List.getD_cons_succ, List.take_succ_cons,
          List.filter_cons, ht, hidx]
      rw [hfilter, hcalls]
    · rw [if_neg ht]
      rw [accStep_spaceJoin prev t hprev]
      have hprev' : ∀ x ∈ prev ++ [t], x ≠ "" := by
        intro x hx
        rcases List.mem_append.mp hx with hx | hx
        · exact hprev x hx
        · simp at hx; subst hx; exact ht
      rw [ih (j + 1) (prev ++ [t])
        (c ++ [(spaceJoin (prev ++ [t]), decide (j = K - 1))]) hprev']
      have hfilter : (t :: ts').filter (fun s => s ≠ "") =
          t :: ts'.filter (fun s => s ≠ "") := by
        simp [List.filter_cons, ht]
      have htext : (prev ++ [t]) ++ ts'.filter (fun s => s ≠ "") =
          prev ++ (t :: ts').filter (fun s => s ≠ "") := by
        rw [hfilter, List.append_assoc]
        rfl
      have hcalls :
          (List.range (t :: ts').length).filterMap (fun i =>
            if (t :: ts').getD i "" = "" then none
            else some (spaceJoin (prev ++ ((t :: ts').take (i + 1)).filter (fun s => s ≠ "")),
              decide (j + i = K - 1))) =
          (spaceJoin (prev ++ [t]), decide (j = K - 1)) ::
          (List.range ts'.length).filterMap (fun i =>
            if ts'.getD i "" = "" then none
            else some (spaceJoin ((prev ++ [t]) ++ (ts'.take (i + 1)).filter (fun s => s ≠ "")),
              decide (j + 1 + i = K - 1))) := by
        rw [hts, List.range_succ_eq_map, List.filterMap_cons, List.filterMap_map]
        have h0 : (if (t :: ts').getD 0 "" = "" then
            (none : Option (String × Bool))
            else some (spaceJoin (prev ++ ((t :: ts').take (0 + 1)).filter (fun s => s ≠ "")),
              decide (j + 0 = K - 1))) =
            some (spaceJoin (prev ++ [t]), decide (j = K - 1)) := by
          simp [ht, List.filter_cons]
        rw [h0]
        refine congrArg (List.cons _) (List.filterMap_congr ?_)
        intro i hi
        have hidx : j + (i + 1) = j + 1 + i := by omega
        simp [Function.comp, List.getD_cons_succ, List.take_succ_cons,
          List.filter_cons, ht, hidx, List.append_assoc]
      rw [htext, hcalls]
      congr 1
      rw [List.append_assoc]
      rfl

/-- Helper: padding does nothing to a full-length chunk. -/
theorem padTo_of_length_eq (cs : Nat) (b : List ℚ) (hb : b.length = cs) :
    padTo cs b = b := by
  unfold padTo
  rw [if_neg (by omega)]

/-- Helper: on full-length chunks, decoding the padded chunk is decoding
the chunk. -/
theorem forall2_pad (cs : Nat) (decode : List ℚ → Except String String) :
    ∀ (bs : List (List ℚ)) (ts : List String), (∀ b ∈ bs, b.length = cs) →
      List.Forall₂ (fun b t => ∃ raw, decode b = Except.ok raw ∧ strTrim raw = t) bs ts →
      List.Forall₂ (fun b t => ∃ raw, decode (padTo cs b) = Except.ok raw ∧
        strTrim raw = t) bs ts := by
  intro bs ts hlen h
  induction h with
  | nil => exact List.Forall₂.nil
  | @cons b t bs' ts' hr hrest ih =>
    refine List.Forall₂.cons ?_ (ih (fun x hx => hlen x (by simp [hx])))
    rw [padTo_of_length_eq cs b (hlen b (by simp))]
    exact hr

/-- Helper: `chunks(cs)` of a concatenation of `cs`-sized blocks returns
exactly those blocks. -/
theorem listChunks_flatten (cs : Nat) (hcs : 0 < cs) :
    ∀ (bs : List (List ℚ)) (fuel : Nat), (∀ b ∈ bs, b.length = cs) →
      bs.flatten.length ≤ fuel → listChunks cs fuel bs.flatten = bs := by
  intro bs
  induction bs with
  | nil => intro fuel _ _; cases fuel <;> rfl
  | cons b bs' ih =>
    intro fuel hlen hfuel
    have hb : b.length = cs := hlen b (by simp)
    cases b with
    | nil => exfalso; simp at hb; omega
    | cons x xs =>
      simp only [List.flatten_cons, List.cons_append] at hfuel ⊢
      match fuel, hfuel with
      | fuel + 1, hfuel =>
        show listChunks cs (fuel + 1) (x :: (xs ++ bs'.flatten)) = (x :: xs) :: bs'
        simp only [listChunks]
        have htake : (x :: (xs ++ bs'.flatten)).take cs = x :: xs := by
          have := List.take_left (x :: xs) bs'.flatten
          rw [hb] at this
          simpa using this
        have hdrop : (x :: (xs ++ bs'.flatten)).drop cs = bs'.flatten := by
          have := List.drop_left (x :: xs) bs'.flatten
          rw [hb] at this
          simpa using this
        rw [htake, hdrop, ih fuel (fun y hy => hlen y (by simp [hy])) (by
          simp only [List.length_cons, List.length_append] at hfuel
          have : xs.length + 1 = cs := by simpa using hb
          omega)]

/-- Helper: `chunks(cs)` produces `⌈len / cs⌉ = (len + cs - 1) / cs`
chunks — the `total_chunks` count computed at whisper.rs:472. -/
theorem listChunks_length (cs : Nat) (hcs : 0 < cs) :
    ∀ (fuel : Nat) (l : List ℚ), l.length ≤ fuel →
      (listChunks cs fuel l).length = (l.length + cs - 1) / cs := by
  intro fuel
  induction fuel with
  | zero =>
    intro l hl
    have : l = [] := List.eq_nil_of_length_eq_zero (by omega)
    subst this
    simp [listChunks, Nat.div_eq_of_lt (by omega : cs - 1 < cs)]
  | succ fuel ih =>
    intro l hl
    match l with
    | [] => simp [listChunks, Nat.div_eq_of_lt (by omega : cs - 1 < cs)]
    | x :: xs =>
      simp only [listChunks, List.length_cons]
      have hdl : ((x :: xs).drop cs).length ≤ fuel := by
        simp only [List.length_drop, List.length_cons]
        simp only [List.length_cons] at hl
        omega
      rw [ih ((x :: xs).drop cs) hdl]
      simp only [List.length_drop, List.length_cons]
      have hlen1 : xs.length + 1 + cs - 1 = (xs.length + 1 - 1) + cs := by omega
      rw [hlen1, Nat.add_div_right _ hcs]
      by_cases hc : xs.length + 1 ≤ cs
      · have h1 : xs.length + 1 - cs = 0 := by omega
        rw [h1]
        have h2 : (0 + cs - 1) / cs = 0 := Nat.div_eq_of_lt (by omega)
        have h3 : (xs.length + 1 - 1) / cs = 0 := Nat.div_eq_of_lt (by omega)
        omega
      · have h1 : xs.length + 1 - cs + cs - 1 = (xs.length + 1 - 1 - cs) + cs := by omega
        rw [h1, Nat.add_div_right _ hcs]
        have h2 : xs.length + 1 - 1 - cs + cs = xs.length + 1 - 1 := by omega
        conv_rhs => rw [← h2]
        rw [Nat.add_div_right _ hcs]

/-- Helper: the concatenation of `K` blocks of `cs` samples has `K·cs`
samples. -/
theorem flatten_length_of_uniform (cs : Nat) :
    ∀ (bs : List (List ℚ)), (∀ b ∈ bs, b.length = cs) →
      bs.flatten.length = bs.length * cs := by
  intro bs
  induction bs with
  | nil => simp
  | cons b bs' ih =>
    intro hlen
    simp only [List.flatten_cons, List.length_append, List.length_cons]
    rw [ih (fun y hy => hlen y (by simp [hy])), hlen b (by simp)]
    ring

/-- C1: over a buffer that is the concatenation of `K` chunk-sized blocks
(at the model's 16 kHz rate), `transcribe_chunked` invokes the progress
callback exactly once per block whose decoded, trimmed text is non-empty —
passing the accumulated text so far and `is_final = true` exactly on the
invocation for the last block — and returns the space-joined concatenation
of the non-empty per-chunk trimmed texts; empty chunks contribute no
callback and no separator. -/
theorem C1_chunked_calls_and_text
    (ctor : Nat → Nat → Nat → Except String (Nat → List ℚ → Except String (List ℚ)))
    (decode : List ℚ → Except String String)
    (blocks : List (List ℚ)) (ts : List String) (cs : Nat)
    (hcs : 0 < cs) (hlen : ∀ b ∈ blocks, b.length = cs)
    (hdec : List.Forall₂ (fun b t => ∃ raw, decode b = Except.ok raw ∧
      strTrim raw = t) blocks ts) :
    transcribe_chunked ctor (some decode) blocks.flatten 16000 cs =
      Outcome.ok (spaceJoin (ts.filter (fun s => s ≠ "")),
        (List.range ts.length).filterMap (fun i =>
          if ts.getD i "" = "" then none
          else some (spaceJoin ((ts.take (i + 1)).filter (fun s => s ≠ "")),
            decide (i = ts.length - 1)))) := by
  have hK : blocks.length = ts.length := hdec.length_eq
  have hflat : blocks.flatten.length = blocks.length * cs :=
    flatten_length_of_uniform cs blocks hlen
  have htotal : (blocks.flatten.length + cs - 1) / cs = ts.length := by
    rw [hflat, hK]
    have h1 : ts.length * cs + cs - 1 = (cs - 1) + ts.length * cs := by omega
    rw [h1, Nat.add_mul_div_right _ _ hcs, Nat.div_eq_of_lt (by omega)]
    omega
  have hchunks : listChunks cs blocks.flatten.length blocks.flatten = blocks :=
    listChunks_flatten cs hcs blocks _ hlen (le_refl _)
  show chunkLoop decode cs ((blocks.flatten.length + cs - 1) / cs)
    (listChunks cs blocks.flatten.length blocks.flatten) 0 "" [] = _
  rw [htotal, hchunks]
  refine (chunkLoop_char decode cs ts.length blocks ts 0 [] []
    (forall2_pad cs decode blocks ts hlen hdec) (by intro x hx; cases hx)).trans ?_
  simp only [List.nil_append]
  refine congrArg _ ?_
  refine congrArg _ ?_
  apply List.filterMap_congr
  intro i hi
  simp [Nat.zero_add]

/-- C10: with a loaded model, (a) transcribing an empty buffer returns the
empty string with no callback invocation, and (b) whenever the final
chunk's trimmed text is empty (trailing silence), the call still succeeds
with the accumulated text but the callback is never invoked with
`is_final = true`. -/
theorem C10_chunked_empty_and_trailing_silence
    (ctor : Nat → Nat → Nat → Except String (Nat → List ℚ → Except String (List ℚ)))
    (decode : List ℚ → Except String String)
    (audio : List ℚ) (ts : List String) (cs : Nat) (hcs : 0 < cs)
    (hdec : List.Forall₂ (fun b t => ∃ raw, decode (padTo cs b) = Except.ok raw ∧
      strTrim raw = t) (listChunks cs audio.length audio) ts)
    (hlast : ts.getLast? = some "") :
    (transcribe_chunked ctor (some decode) [] 16000 cs = Outcome.ok ("", [])) ∧
    (∃ r, transcribe_chunked ctor (some decode) audio 16000 cs = Outcome.ok r ∧
      ∀ p ∈ r.2, p.2 = false) := by
  constructor
  · rfl
  · have hts_len : ts.length = (audio.length + cs - 1) / cs := by
      rw [← hdec.length_eq, listChunks_length cs hcs audio.length audio (le_refl _)]
    have hchar := chunkLoop_char decode cs ((audio.length + cs - 1) / cs)
      (listChunks cs audio.length audio) ts 0 [] [] hdec (by intro x hx; cases hx)
    refine ⟨(spaceJoin ([] ++ ts.filter (fun s => s ≠ "")),
        [] ++ (List.range ts.length).filterMap (fun i =>
          if ts.getD i "" = "" then none
          else some (spaceJoin ([] ++ (ts.take (i + 1)).filter (fun s => s ≠ "")),
            decide (0 + i = (audio.length + cs - 1) / cs - 1)))), ?_, ?_⟩
    · exact hchar
    · intro p hp
      simp only [List.nil_append] at hp
      obtain ⟨i, hir, hFi⟩ := List.mem_filterMap.mp hp
      have hirange : i < ts.length := List.mem_range.mp hir
      by_cases hi : ts.getD i "" = ""
      · rw [if_pos hi] at hFi
        cases hFi
      · rw [if_neg hi] at hFi
        have hne : i ≠ ts.length - 1 := by
          intro he
          apply hi
          rw [he, List.getD_eq_getElem?_getD, ← List.getLast?_eq_getElem?, hlast]
          rfl
        have hp2 : p = (spaceJoin ([] ++ (ts.take (i + 1)).filter (fun s => s ≠ "")),
            decide (0 + i = (audio.length + cs - 1) / cs - 1)) := by
          cases hFi
          rfl
        rw [hp2]
        show decide (0 + i = (audio.length + cs - 1) / cs - 1) = false
        rw [← hts_len]
        exact decide_eq_false (by omega)

/-- Witness for `C1_chunked_calls_and_text`: three 2-sample blocks decoding
to `" hello "`, whitespace, and `"world"` produce the text
`"hello world"` and exactly two callback invocations, the second final. -/
theorem C1_chunked_calls_and_text_witness :
    transcribe_chunked ctorFixed (some decodeSample)
      ([[1, 1], [2, 2], [3, 3]] : List (List ℚ)).flatten 16000 2 =
      Outcome.ok ("hello world", [("hello", false), ("hello world", true)]) :=
  (C1_chunked_calls_and_text ctorFixed decodeSample [[1, 1], [2, 2], [3, 3]]
    ["hello", "", "world"] 2 (by decide) (by decide)
    (List.Forall₂.cons ⟨" hello ", rfl, by decide⟩
      (List.Forall₂.cons ⟨"  ", rfl, by decide⟩
        (List.Forall₂.cons ⟨"world", rfl, by decide⟩ List.Forall₂.nil)))).trans
    (by decide)

/-- Witness for `C10_chunked_empty_and_trailing_silence`: audio `[5, 0]`
in 1-sample chunks, where the trailing chunk decodes to silence. -/
theorem C10_chunked_empty_and_trailing_silence_witness :
    (transcribe_chunked ctorFixed (some decodeTail) [] 16000 1 = Outcome.ok ("", [])) ∧
    (∃ r, transcribe_chunked ctorFixed (some decodeTail) [5, 0] 16000 1 = Outcome.ok r ∧
      ∀ p ∈ r.2, p.2 = false) :=
  C10_chunked_empty_and_trailing_silence ctorFixed decodeTail [5, 0] ["hi", ""] 1
    (by decide)
    (List.Forall₂.cons ⟨"hi", rfl, rfl⟩
      (List.Forall₂.cons ⟨"", rfl, rfl⟩ List.Forall₂.nil))
    rfl
